import Mathlib

/-!
Verification development for the huml-js repository: a shallow embedding of
the HUML decoder (src/huml.js) and encoder (the stringify module) as
executable Lean functions, together with theorems about the claims made in
the specification.

Modelling conventions:
* The JavaScript `Parser` object holds `data` (a UTF-16 string), `pos`
  (an absolute offset) and `line` (a 1-based line counter).  We model the
  mutable `this` as an explicit state `St` (pos, line) threaded through every
  function, with `data : List Char` passed as a fixed parameter.  The inputs
  in this development are ASCII, so `List Char` indexing coincides with
  UTF-16 code-unit indexing.
* JavaScript exceptions abort the computation but leave the mutations made
  so far in place; the result type `Res` therefore carries the state on the
  error path as well.
* `this.data[i]` out of range yields `undefined` in JS, which compares
  unequal to every character; `peekChar` returns `'\0'` there.  We read
  characters with a NUL default, which is observationally identical for
  inputs containing no NUL character (all inputs considered here).
* Loops whose progress is not structural are given a `fuel` parameter so
  that every definition is kernel-computable; `decode` supplies fuel far in
  excess of what any terminating run of the JS code can consume, and the
  general theorems quantify over the fuel.
* Models of JS built-ins (`parseInt`, `String.prototype.slice` with negative
  end, `localeCompare`, the `in` operator, `JSON.stringify` of strings) are
  defined below, each with a comment stating what is being modelled.
-/

namespace HUML

/-- Parser state: `this.pos` and the 1-based `this.line` of src/huml.js. -/
structure St where
  pos : Nat
  line : Nat
deriving Repr, DecidableEq

/-- A positioned parse error (class ParseError): message plus the value of
`this.line` at the moment of the throw. -/
structure Err where
  msg : String
  line : Nat
deriving Repr, DecidableEq

/-- Result of running a parser step: like the JS semantics, an exception
(`fail`) still records the state the mutable parser was left in. -/
inductive Res (α : Type) where
  | ok (a : α) (s : St)
  | fail (e : Err) (s : St)
deriving Repr

/-- Sequencing that propagates errors, mirroring straight-line JS statements
where any thrown exception aborts the caller as well. -/
def Res.andThen {α β : Type} : Res α → (α → St → Res β) → Res β
  | .ok a s, k => k a s
  | .fail e s, _ => .fail e s

/-- A parser computation over the fixed document. -/
abbrev PM (α : Type) := St → Res α

/-- Line number of the state inside a result (both branches). -/
def stLine {α : Type} : Res α → Nat
  | .ok _ t => t.line
  | .fail _ t => t.line

/-- The state inside a result (both branches). -/
def stOf {α : Type} : Res α → St
  | .ok _ t => t
  | .fail _ t => t

/-- Advance the offset by `n` (the JS `advance` mutates only `pos`; the line
counter is maintained exclusively by `consumeLine`/`consumeLineContent`). -/
def adv (s : St) (n : Nat) : St := ⟨s.pos + n, s.line⟩

/-- The HUML value tree.  JS has a single `number` type; the parser produces
integers via `parseInt` and floats via `parseFloat`, and the two must be
distinguished for the encoder, so `JSNum` keeps the distinction.  A finite
non-integer float is represented by its cleaned literal text (no claim in
this development depends on float identity or formatting). -/
inductive JSNum where
  | int (n : Int)
  | floatTok (t : String)
  | nan
  | inf
  | negInf
deriving Repr, DecidableEq

/-- Decoded values.  A JS object is modelled as an association list in
property-insertion order.  (The JS ordering quirk that integer-like keys
enumerate first is not modelled; no claim here depends on it.) -/
inductive Value where
  | null
  | bool (b : Bool)
  | num (n : JSNum)
  | str (s : String)
  | list (items : List Value)
  | dict (entries : List (String × Value))

/-- The value carried by a successful decode, if any. -/
def resVal (r : Res Value) : Option Value :=
  match r with
  | .ok v _ => some v
  | .fail _ _ => none

/-- The message and line carried by a failed decode, if any. -/
def resErr (r : Res Value) : Option (String × Nat) :=
  match r with
  | .ok _ _ => none
  | .fail e _ => some (e.msg, e.line)

/-! ### Character classes (src/huml.js isDigit/isAlpha/isAlphaNum/isHex).
JS compares one-character strings, i.e. UTF-16 code units; we compare
`Char.toNat`. -/

def isDigitC (c : Char) : Bool := 48 ≤ c.toNat && c.toNat ≤ 57

def isAlphaC (c : Char) : Bool :=
  (97 ≤ c.toNat && c.toNat ≤ 122) || (65 ≤ c.toNat && c.toNat ≤ 90)

def isAlphaNumC (c : Char) : Bool := isAlphaC c || isDigitC c

def isHexC (c : Char) : Bool :=
  isDigitC c || (97 ≤ c.toNat && c.toNat ≤ 102) || (65 ≤ c.toNat && c.toNat ≤ 70)

/-! ### List/string utilities modelling the JS string operations used. -/

/-- The characters of a string literal. -/
def strL (s : String) : List Char := s.data

/-- `this.data[i]`, with the out-of-range NUL convention described above
(matches `peekChar`, and is adequate for `=== c` comparisons). -/
def getD (data : List Char) (i : Nat) : Char := data.getD i '\x00'

/-- `this.done()`: `pos >= data.length`. -/
def doneB (data : List Char) (s : St) : Bool := decide (data.length ≤ s.pos)

/-- Length of the longest prefix satisfying `p` (used for the simple
character-scanning `while` loops, each of which only increments `pos`). -/
def countWhile (p : Char → Bool) : List Char → Nat
  | [] => 0
  | c :: rest => if p c then countWhile p rest + 1 else 0

/-- Does `sub` occur at the head of `l`? -/
def startsWithList : List Char → List Char → Bool
  | _, [] => true
  | [], _ :: _ => false
  | c :: r, d :: t => c == d && startsWithList r t

/-- `String.prototype.includes(sub)` on a character list. -/
def containsSub : List Char → List Char → Bool
  | [], sub => sub.isEmpty
  | l@(_ :: r), sub => startsWithList l sub || containsSub r sub

/-- Index of the first occurrence of `c`, if any. -/
def idxOf (l : List Char) (c : Char) : Option Nat :=
  match l with
  | [] => none
  | x :: r => if x == c then some 0 else (idxOf r c).map (· + 1)

/-- Index of the last occurrence of `c`, if any. -/
def lastIdxOf (l : List Char) (c : Char) : Option Nat :=
  match l with
  | [] => none
  | x :: r =>
    match lastIdxOf r c with
    | some i => some (i + 1)
    | none => if x == c then some 0 else none

/-- `String.prototype.indexOf(c, from)` with the JS `-1` not-found result. -/
def jsIndexOfFrom (data : List Char) (c : Char) (from_ : Nat) : Int :=
  match idxOf (data.drop from_) c with
  | none => -1
  | some i => (from_ + i : Nat)

/-- `String.prototype.slice(start, end)` where `end` may be negative
(counted from the end) — this is how `consumeLine` builds `remLine` when
`indexOf` returned `-1`, silently dropping the final character. -/
def jsSlice (data : List Char) (start : Nat) (endI : Int) : List Char :=
  let len : Int := data.length
  let e : Int := if endI < 0 then len + endI else endI
  let e' : Nat := min (max e 0).toNat data.length
  (data.take e').drop start

/-- `substring(start, stop)` with in-range Nat indices. -/
def jsSliceNat (data : List Char) (start stop : Nat) : List Char :=
  (data.take stop).drop start

/-- `String.prototype.split('\n')`. -/
def splitNL : List Char → List (List Char)
  | [] => [[]]
  | c :: r =>
    let rest := splitNL r
    if c == '\n' then [] :: rest
    else
      match rest with
      | h :: t => (c :: h) :: t
      | [] => [[c]]

/-- JS whitespace for `trim` (the characters that can occur in the inputs
considered here). -/
def isWsC (c : Char) : Bool := c == ' ' || c == '\t' || c == '\n' || c == '\r'

/-- `String.prototype.trim()`. -/
def trimList (l : List Char) : List Char :=
  ((l.dropWhile isWsC).reverse.dropWhile isWsC).reverse

/-- `isSpaceString(s)`: `s.trim() === ''`. -/
def isSpaceString (l : List Char) : Bool := (trimList l).isEmpty

/-- `numStr.replace(/_/g, '')`. -/
def stripUnderscores (l : List Char) : List Char := l.filter (fun c => c != '_')

/-- Join with newlines (`lines.join('\n')`). -/
def joinNL : List (List Char) → List Char
  | [] => []
  | [l] => l
  | l :: rest => l ++ '\n' :: joinNL rest

/-! ### Models of JS numeric built-ins. -/

/-- Digit value of a character under `parseInt` (0-9, a-z, A-Z). -/
def digitVal (c : Char) : Nat :=
  if isDigitC c then c.toNat - 48
  else if 97 ≤ c.toNat && c.toNat ≤ 122 then c.toNat - 87
  else if 65 ≤ c.toNat && c.toNat ≤ 90 then c.toNat - 55
  else 99

/-- Is `c` a digit of the given radix for `parseInt`? -/
def isRadixDigit (radix : Nat) (c : Char) : Bool := decide (digitVal c < radix)

/-- Value of a digit string in the given radix. -/
def natOfDigits (radix : Nat) (l : List Char) : Nat :=
  l.foldl (fun acc c => acc * radix + digitVal c) 0

/-- Model of the ECMAScript `parseInt(string, radix)`: skip leading
whitespace, take an optional sign, strip a `0x`/`0X` prefix when the radix
is 16, then read the longest prefix of radix digits; `none` models the NaN
result (no digits at all).  In particular `parseInt("12zz", 16)` is `0x12`,
not NaN. -/
def jsParseInt (chars : List Char) (radix : Nat) : Option Int :=
  let t := chars.dropWhile isWsC
  let (sign, t) : Int × List Char :=
    match t with
    | '-' :: r => (-1, r)
    | '+' :: r => (1, r)
    | _ => (1, t)
  let t := if radix == 16 &&
      (startsWithList t (strL "0x") || startsWithList t (strL "0X")) then
      t.drop 2 else t
  let digs := t.takeWhile (isRadixDigit radix)
  if digs.isEmpty then none
  else some (sign * (natOfDigits radix digs : Nat))

/-- Model of `String.fromCharCode`: the argument is taken modulo 2^16.
Lean's `Char` cannot represent lone surrogates; `Char.ofNat` falls back to
NUL there (no input in this development produces a surrogate). -/
def fromCharCode (i : Int) : Char := Char.ofNat (i.emod 65536).toNat

/-! ### Cursor helpers (src/huml.js lines 771-899). -/

/-- `peekString(lit)`: `pos + lit.length <= data.length && data.startsWith(lit, pos)`. -/
def peekStringS (data : List Char) (s : St) (lit : List Char) : Bool :=
  decide (s.pos + lit.length ≤ data.length) && startsWithList (data.drop s.pos) lit

/-- `skipSpaces()`: advances `pos` past spaces; never touches `line`. -/
def skipSpacesSt (data : List Char) (s : St) : St :=
  ⟨s.pos + countWhile (fun c => c == ' ') (data.drop s.pos), s.line⟩

/-- `lineStart()`: the offset just after the nearest `'\n'` before `pos`
(or 0).  `lastIndexOf('\n', pos-1)` with `pos = 0` clamps the from-index to
0 per the ECMAScript spec, which the `max pos 1` reproduces. -/
def lineStartF (data : List Char) (pos : Nat) : Nat :=
  if pos > 0 && decide (pos ≤ data.length) && (getD data (pos - 1) == '\n') then pos
  else
    match lastIdxOf (data.take (max pos 1)) '\n' with
    | some i => i + 1
    | none => 0

/-- `getCurIndent()`: leading spaces of the current physical line. -/
def curIndentOf (data : List Char) (s : St) : Nat :=
  countWhile (fun c => c == ' ') (data.drop (lineStartF data s.pos))

/-- `isKeyStart()`: a quote or an ASCII letter (note: not `_`). -/
def isKeyStartB (data : List Char) (s : St) : Bool :=
  !doneB data s && (getD data s.pos == '"' || isAlphaC (getD data s.pos))

/-! ### String literal scanning (parseString, src/huml.js lines 481-531).
The `while` loop of `parseString` only ever advances `pos` (by 1, 2 or 6
characters per iteration) and never touches `line`; we express it as a pure
structural scan over the suffix after the opening quote, returning how many
characters were consumed up to the closing quote or up to the position of
the throw. -/

/-- Outcome of scanning a single-line string body. -/
inductive SRes where
  | sok (consumed : Nat) (out : List Char)
  | sfail (consumed : Nat) (msg : String)

/-- Prepend `k` consumed characters and `out` produced characters. -/
def strCont (k : Nat) (out : List Char) : SRes → SRes
  | .sok n o => .sok (k + n) (out ++ o)
  | .sfail n m => .sfail (k + n) m

/-- The body of `parseString` after the opening quote.  The escape table is
ESCAPE_MAP (lines 39-48); `\,u` takes the next 4 characters and feeds them to
`parseInt(hex, 16)`, failing only when that yields NaN; on success
`String.fromCharCode` is applied to the (possibly partial-prefix) value and
all 4 characters are skipped. -/
def strScan : List Char → SRes
  | [] => .sfail 0 "unclosed string"
  | c :: rest =>
    if c == '"' then .sok 1 []
    else if c == '\n' then .sfail 0 "newlines not allowed in single-line strings"
    else if c == '\\' then
      match rest with
      | [] => .sfail 1 "incomplete escape sequence"
      | e :: rest2 =>
        if e == '"' then strCont 2 ['"'] (strScan rest2)
        else if e == '\\' then strCont 2 ['\\'] (strScan rest2)
        else if e == '/' then strCont 2 ['/'] (strScan rest2)
        else if e == 'n' then strCont 2 ['\n'] (strScan rest2)
        else if e == 't' then strCont 2 ['\t'] (strScan rest2)
        else if e == 'r' then strCont 2 ['\r'] (strScan rest2)
        else if e == 'b' then strCont 2 ['\x08'] (strScan rest2)
        else if e == 'f' then strCont 2 ['\x0c'] (strScan rest2)
        else if e == 'u' then
          match rest2 with
          | h1 :: h2 :: h3 :: h4 :: rest6 =>
            match jsParseInt [h1, h2, h3, h4] 16 with
            | some code => strCont 6 [fromCharCode code] (strScan rest6)
            | none =>
              .sfail 1 ("invalid unicode escape sequence \\u" ++ String.mk [h1, h2, h3, h4])
          | _ => .sfail 1 "incomplete unicode escape sequence \\u"
        else .sfail 1 ("invalid escape character \x27\\" ++ Char.toString e ++ "\x27")
    else strCont 1 [c] (strScan rest)

/-- `parseString()`: skip the opening quote, scan the body.  The state on
the error path reflects the `pos` at the moment of the throw; `line` is
never modified. -/
def parseStringPM (data : List Char) : PM String := fun s =>
  match strScan (data.drop (s.pos + 1)) with
  | .sok n out => .ok (String.mk out) ⟨s.pos + 1 + n, s.line⟩
  | .sfail n msg => .fail ⟨msg, s.line⟩ ⟨s.pos + 1 + n, s.line⟩

/-- Characters allowed in a bare key after the first (the `parseKey` scan
accepts alphanumerics, `-` and `_` with no first-character restriction). -/
def isKeyCharC (c : Char) : Bool := isAlphaNumC c || c == '-' || c == '_'

/-- `parseKey()` (lines 385-403): skip spaces; a quote starts a quoted-string
key, otherwise scan `[A-Za-z0-9_-]*` and require it nonempty. -/
def parseKey (data : List Char) : PM String := fun s =>
  let s1 := skipSpacesSt data s
  if getD data s1.pos == '"' then parseStringPM data s1
  else
    let n := countWhile isKeyCharC (data.drop s1.pos)
    if n == 0 then .fail ⟨"expected a key", s1.line⟩ s1
    else .ok (String.mk ((data.drop s1.pos).take n)) ⟨s1.pos + n, s1.line⟩

/-- `parseIndicator()` (lines 406-419): `true` means `::` (vector). -/
def parseIndicator (data : List Char) : PM Bool := fun s =>
  if doneB data s || !(getD data s.pos == ':') then
    .fail ⟨"expected \x27:\x27 or \x27::\x27 after key", s.line⟩ s
  else
    let s1 := adv s 1
    if !doneB data s1 && getD data s1.pos == ':' then .ok true (adv s1 1)
    else .ok false s1

/-- `assertSpace(context)` (lines 742-752): exactly one space. -/
def assertSpace (data : List Char) (ctx : String) : PM Unit := fun s =>
  if doneB data s || !(getD data s.pos == ' ') then
    .fail ⟨"expected single space " ++ ctx, s.line⟩ s
  else
    let s1 := adv s 1
    if !doneB data s1 && getD data s1.pos == ' ' then
      .fail ⟨"expected single space " ++ ctx ++ ", found multiple", s.line⟩ s1
    else .ok () s1

/-- `expectComma()` (lines 755-768). -/
def expectComma (data : List Char) : PM Unit := fun s =>
  let s1 := skipSpacesSt data s
  if doneB data s1 || !(getD data s1.pos == ',') then
    .fail ⟨"expected a comma in inline collection", s1.line⟩ s1
  else if s1.pos > 0 && getD data (s1.pos - 1) == ' ' then
    .fail ⟨"no spaces allowed before comma", s1.line⟩ s1
  else assertSpace data "after comma" (adv s1 1)

/-- `consumeLine()` (lines 685-720): validate the rest of the line
(trailing spaces, comment formatting) and move past the newline.  The
`remLine` computation uses `slice(pos, indexOf('\n', pos))`; when there is
no further newline the `-1` end index drops the final character of the
document. -/
def consumeLine (data : List Char) : PM Unit := fun s =>
  let contentStart := s.pos
  let s1 := skipSpacesSt data s
  let afterCheck : Res Unit :=
    if doneB data s1 || getD data s1.pos == '\n' then
      if s1.pos > contentStart then .fail ⟨"trailing spaces are not allowed", s1.line⟩ s1
      else .ok () s1
    else if getD data s1.pos == '#' then
      if s1.pos == contentStart &&
          !(curIndentOf data s1 == s1.pos - lineStartF data s1.pos) then
        .fail ⟨"a value must be separated from an inline comment by a space", s1.line⟩ s1
      else
        let s2 := adv s1 1
        if !doneB data s2 && !(getD data s2.pos == ' ') && !(getD data s2.pos == '\n') then
          .fail ⟨"comment hash \x27#\x27 must be followed by a space", s2.line⟩ s2
        else .ok () s2
    else .fail ⟨"unexpected content at end of line", s1.line⟩ s1
  afterCheck.andThen fun _ s3 =>
    let remLine := jsSlice data s3.pos (jsIndexOfFrom data '\n' s3.pos)
    if !remLine.isEmpty && remLine.getLastD '\x00' == ' ' then
      .fail ⟨"trailing spaces are not allowed", s3.line⟩ s3
    else
      match idxOf (data.drop s3.pos) '\n' with
      | some i => .ok () ⟨s3.pos + i + 1, s3.line + 1⟩
      | none => .ok () ⟨data.length, s3.line⟩

/-- `consumeLineContent()` (lines 723-739): the raw rest of the line, no
validation; bumps the line counter when a newline is crossed. -/
def consumeLineContent (data : List Char) (s : St) : List Char × St :=
  match idxOf (data.drop s.pos) '\n' with
  | none => (data.drop s.pos, ⟨data.length, s.line⟩)
  | some i => ((data.drop s.pos).take i, ⟨s.pos + i + 1, s.line + 1⟩)

/-- `skipBlankLines()` (lines 659-682): skip blank and comment lines,
rejecting trailing spaces; stops with `pos` just past the indentation of the
first content line. -/
def skipBlankLines (data : List Char) : Nat → PM Unit
  | 0 => fun s => .fail ⟨"out of fuel", s.line⟩ s
  | fuel + 1 => fun s =>
    if doneB data s then .ok () s
    else
      let lineStart := s.pos
      let s1 := skipSpacesSt data s
      if doneB data s1 then
        if s1.pos > lineStart then .fail ⟨"trailing spaces are not allowed", s1.line⟩ s1
        else .ok () s1
      else if !(getD data s1.pos == '\n') && !(getD data s1.pos == '#') then .ok () s1
      else if getD data s1.pos == '\n' && s1.pos > lineStart then
        .fail ⟨"trailing spaces are not allowed", s1.line⟩ s1
      else
        (consumeLine data ⟨lineStart, s1.line⟩).andThen fun _ s2 =>
          skipBlankLines data fuel s2

/-! ### Number parsing (src/huml.js lines 587-656). -/

/-- The decimal-literal scan of `parseNumber`: how many characters the loop
consumes and whether a `.` or exponent marked the literal as a float.  The
JS loop consumes a `+`/`-` immediately after an `e`/`E` in the same
iteration; here the pending sign-consumption is carried as a flag into the
next step, which consumes exactly the same characters. -/
def scanDecAux : Bool → List Char → Nat × Bool
  | _, [] => (0, false)
  | afterExp, c :: rest =>
    if afterExp && (c == '+' || c == '-') then
      let (n, f) := scanDecAux false rest
      (n + 1, f)
    else if isDigitC c || c == '_' then
      let (n, f) := scanDecAux false rest
      (n + 1, f)
    else if c == '.' then
      let (n, _) := scanDecAux false rest
      (n + 1, true)
    else if c == 'e' || c == 'E' then
      let (n, _) := scanDecAux true rest
      (n + 1, true)
    else (0, false)

/-- Entry point of the decimal scan. -/
def scanDec (l : List Char) : Nat × Bool := scanDecAux false l

/-- `parseBase(start, base, prefix)` (lines 632-656): scan base digits
(note: the validators accept no underscore, so the scan stops at one), fail
when no digit follows the prefix, and apply the sign from the character at
`start`.  The `replace(/_/g, '')` is kept although the scan makes it a
no-op. -/
def parseBase (data : List Char) (start : Nat) (base : Nat) (pfxLen : Nat) :
    PM Value := fun s =>
  let s1 := adv s pfxLen
  let n := countWhile (isRadixDigit base) (data.drop s1.pos)
  let s2 := adv s1 n
  if n == 0 then
    .fail ⟨"invalid number literal, requires digits after prefix", s2.line⟩ s2
  else
    let sign : Int := if getD data start == '-' then -1 else 1
    let numStr := stripUnderscores (jsSliceNat data s1.pos s2.pos)
    .ok (.num (.int (sign * (jsParseInt numStr base).getD 0))) s2

/-- `parseNumber()` (lines 587-629): optional sign, then a base-prefixed
literal or a decimal scan; floats go through `parseFloat` (represented here
by the cleaned literal text), integers through `parseInt(numStr, 10)`. -/
def parseNumber (data : List Char) : PM Value := fun s =>
  let start := s.pos
  let c := getD data s.pos
  let s1 := if c == '+' || c == '-' then adv s 1 else s
  if peekStringS data s1 (strL "0x") then parseBase data start 16 2 s1
  else if peekStringS data s1 (strL "0o") then parseBase data start 8 2 s1
  else if peekStringS data s1 (strL "0b") then parseBase data start 2 2 s1
  else
    let (n, isFloat) := scanDec (data.drop s1.pos)
    let s2 := adv s1 n
    let numStr := stripUnderscores (jsSliceNat data start s2.pos)
    if isFloat then .ok (.num (.floatTok (String.mk numStr))) s2
    else .ok (.num (.int ((jsParseInt numStr 10).getD 0))) s2

/-! ### Multiline strings (src/huml.js lines 534-584). -/

/-- `processLine` of `parseMultilineString`: for the preserving form strip
the required `keyIndent + 2` spaces when fully present, otherwise leave the
line as-is; for the stripping form trim all surrounding whitespace. -/
def processLine (keyIndent : Nat) (preserve : Bool) (content : List Char) : List Char :=
  if preserve then
    let req := keyIndent + 2
    if decide (req ≤ content.length) && isSpaceString (content.take req) then
      content.drop req
    else content
  else trimList content

/-- The line-accumulating loop of `parseMultilineString`: a closing line is
one whose leading spaces are immediately followed by the delimiter, and its
indent must equal the key's indent exactly. -/
def msLoop (data : List Char) (keyIndent : Nat) (preserve : Bool)
    (delim : List Char) (acc : List (List Char)) : Nat → PM Value
  | 0 => fun s => .fail ⟨"out of fuel", s.line⟩ s
  | fuel + 1 => fun s =>
    if doneB data s then .fail ⟨"unclosed multiline string", s.line⟩ s
    else
      let lineStartPos := s.pos
      let n := countWhile (fun c => c == ' ') (data.drop s.pos)
      let s1 := adv s n
      if peekStringS data s1 delim then
        if !(n == keyIndent) then
          .fail ⟨"multiline closing delimiter must be at same indentation as the key (" ++
            Nat.repr keyIndent ++ " spaces)", s1.line⟩ s1
        else
          (consumeLine data (adv s1 3)).andThen fun _ s2 =>
            .ok (.str (String.mk (joinNL acc))) s2
      else
        let (content, s2) := consumeLineContent data ⟨lineStartPos, s1.line⟩
        msLoop data keyIndent preserve delim
          (acc ++ [processLine keyIndent preserve content]) fuel s2

/-- `parseMultilineString(keyIndent, preserveSpaces)`: read the 3-character
delimiter, validate/consume the rest of the opening line, then accumulate
content lines until the closing delimiter. -/
def parseMultilineString (data : List Char) (keyIndent : Nat) (preserve : Bool)
    (fuel : Nat) : PM Value := fun s =>
  let delim := jsSliceNat data s.pos (s.pos + 3)
  (consumeLine data (adv s 3)).andThen fun _ s1 =>
    msLoop data keyIndent preserve delim [] fuel s1

/-- `parseValue(keyIndent)` (lines 422-478): dispatch on the lookahead
character — quoted or fenced strings, the SPECIAL_VALUES table in order
(true, false, null, nan, inf), signed infinities and numbers, numbers. -/
def parseValue (data : List Char) (keyIndent : Nat) (fuel : Nat) : PM Value := fun s =>
  if doneB data s then .fail ⟨"unexpected end of input, expected a value", s.line⟩ s
  else
    let c := getD data s.pos
    if c == '"' then
      if peekStringS data s (strL "\"\"\"") then
        parseMultilineString data keyIndent false fuel s
      else (parseStringPM data s).andThen fun str s1 => .ok (.str str) s1
    else if c == '\x60' && peekStringS data s (strL "\x60\x60\x60") then
      parseMultilineString data keyIndent true fuel s
    else if peekStringS data s (strL "true") then .ok (.bool true) (adv s 4)
    else if peekStringS data s (strL "false") then .ok (.bool false) (adv s 5)
    else if peekStringS data s (strL "null") then .ok .null (adv s 4)
    else if peekStringS data s (strL "nan") then .ok (.num .nan) (adv s 3)
    else if peekStringS data s (strL "inf") then .ok (.num .inf) (adv s 3)
    else if c == '+' then
      let s1 := adv s 1
      if peekStringS data s1 (strL "inf") then .ok (.num .inf) (adv s1 3)
      else if isDigitC (getD data s1.pos) then parseNumber data ⟨s1.pos - 1, s1.line⟩
      else .fail ⟨"invalid character after \x27+\x27", s1.line⟩ s1
    else if c == '-' then
      let s1 := adv s 1
      if peekStringS data s1 (strL "inf") then .ok (.num .negInf) (adv s1 3)
      else if isDigitC (getD data s1.pos) then parseNumber data ⟨s1.pos - 1, s1.line⟩
      else .fail ⟨"invalid character after \x27-\x27", s1.line⟩ s1
    else if isDigitC c then parseNumber data s
    else .fail ⟨"unexpected character \x27" ++ Char.toString c ++
      "\x27 when parsing value", s.line⟩ s

/-! ### The `in` operator and object assignment. -/

/-- Own property names of `Object.prototype` in a standard JS engine.  The
decoder checks key presence with the `in` operator on a plain object
(`key in out`, src/huml.js line 210), which also sees these inherited
properties. -/
def OBJECT_PROTOTYPE_PROPS : List String :=
  ["constructor", "hasOwnProperty", "isPrototypeOf", "propertyIsEnumerable",
   "toLocaleString", "toString", "valueOf", "__defineGetter__",
   "__defineSetter__", "__lookupGetter__", "__lookupSetter__", "__proto__"]

/-- Model of `key in obj` for a plain-object literal: an own property or a
property inherited from `Object.prototype`. -/
def jsIn (key : String) (obj : List (String × Value)) : Bool :=
  obj.any (fun e => e.1 == key) || OBJECT_PROTOTYPE_PROPS.contains key

/-- Model of `obj[key] = v` for inline dicts (which perform no duplicate
check): update in place when the key exists, else append. -/
def jsSetKey : List (String × Value) → String → Value → List (String × Value)
  | [], k, v => [(k, v)]
  | (k', v') :: rest, k, v =>
    if k' == k then (k', v) :: rest else (k', v') :: jsSetKey rest k v

/-! ### Lookahead predicates (src/huml.js lines 795-850). -/

/-- `hasKeyValuePair()`: trial-parse a key, check the next character is `:`;
the `finally` block restores `pos` (and the trial can never move `line`, as
proved below).  The state on both branches reflects the JS `try/catch/finally`
exactly: `pos` is reset to its saved value, `line` is whatever the trial left
(`parseKey` never changes it). -/
def hasKeyValuePair (data : List Char) : PM Bool := fun s =>
  let saved := s.pos
  match parseKey data s with
  | .ok _ t => .ok (!doneB data t && getD data t.pos == ':') ⟨saved, t.line⟩
  | .fail _ t => .ok false ⟨saved, t.line⟩

/-- The boolean decided by `hasKeyValuePair` (the predicate never throws);
used where the JS `&&`-shortcircuit calls it inline. -/
def hasKVB (data : List Char) (s : St) : Bool :=
  match hasKeyValuePair data s with
  | .ok b _ => b
  | .fail _ _ => false

/-- The scan of `hasInlineDict()` (lines 808-814): `Array.from(...).some(cb)`
over the suffix.  A callback returning `false` merely moves `some` to the
next element, so the `'\n'`/`'#'` branch does NOT stop the scan — the match
test is an un-doubled `:` anywhere in the rest of the document. -/
def hasInlineDictScan : List Char → Bool
  | [] => false
  | c :: rest =>
    if c == '\n' || c == '#' then hasInlineDictScan rest
    else if c == ':' && (rest.isEmpty || !(rest.headD '\x00' == ':')) then true
    else hasInlineDictScan rest

/-- `hasInlineDict()`: purely reads `data`/`pos`; no state is written. -/
def hasInlineDictB (data : List Char) (s : St) : Bool :=
  hasInlineDictScan (data.drop s.pos)

/-- `hasInlineListAtRoot()` (lines 816-822): the current line — computed by
`slice(pos, indexOf('\n', pos))`, whose `-1` end drops the last character on
the final line — truncated at `#`, must contain a comma and no colon. -/
def hasInlineListAtRootB (data : List Char) (s : St) : Bool :=
  let line := jsSlice data s.pos (jsIndexOfFrom data '\n' s.pos)
  let content :=
    match idxOf line '#' with
    | some i => line.take i
    | none => line
  containsSub content [','] && !containsSub content [':']

/-- `hasInlineDictAtRoot()` (lines 824-850): the current logical line (up to
newline or the first `#` anywhere after `pos`) must contain `:` but not `::`
and a comma, and no non-blank non-comment content may follow on later
lines. -/
def hasInlineDictAtRootB (data : List Char) (s : St) : Bool :=
  let len : Int := data.length
  let lineEnd := jsIndexOfFrom data '\n' s.pos
  let commentIdx := jsIndexOfFrom data '#' s.pos
  let e := min (if lineEnd < 0 then len else lineEnd)
               (if commentIdx < 0 then len else commentIdx)
  let line := jsSliceNat data s.pos e.toNat
  let hasColon := containsSub line [':'] && !containsSub line [':', ':']
  let hasComma := containsSub line [',']
  if !(hasColon && hasComma) then false
  else
    let tail := data.drop (if lineEnd < 0 then data.length else lineEnd.toNat)
    let remContent := ((splitNL tail).drop 1).any fun l =>
      let t := trimList l
      !t.isEmpty && !startsWithList t ['#']
    !remContent

/-! ### Inline vectors (src/huml.js lines 320-382).
`parseInlineVectorContents` is one JS function switching on the target
shape; the dict and list instances are written as two loops here, each
following the same source lines. -/

/-- The dict instance of the `parseInlineVectorContents` loop.  Note there is
no duplicate-key check: `result[key] = value` silently overwrites. -/
def inlineDictLoop (data : List Char) (acc : List (String × Value))
    (isFirst : Bool) : Nat → PM Value
  | 0 => fun s => .fail ⟨"out of fuel", s.line⟩ s
  | fuel + 1 => fun s =>
    if doneB data s || getD data s.pos == '\n' || getD data s.pos == '#' then
      (consumeLine data s).andThen fun _ s1 => .ok (.dict acc) s1
    else
      (if isFirst then .ok () s else expectComma data s).andThen fun _ s1 =>
      (parseKey data s1).andThen fun key s2 =>
      if doneB data s2 || !(getD data s2.pos == ':') then
        .fail ⟨"expected \x27:\x27 in inline dict", s2.line⟩ s2
      else
        (assertSpace data "in inline dict" (adv s2 1)).andThen fun _ s3 =>
        (parseValue data 0 fuel s3).andThen fun v s4 =>
        let acc' := jsSetKey acc key v
        if !doneB data s4 && getD data s4.pos == ' ' then
          let np := s4.pos + 1 + countWhile (fun c => c == ' ') (data.drop (s4.pos + 1))
          if decide (np < data.length) && getD data np == ',' then
            inlineDictLoop data acc' false fuel ⟨np, s4.line⟩
          else (consumeLine data s4).andThen fun _ s5 => .ok (.dict acc') s5
        else inlineDictLoop data acc' false fuel s4

/-- The list instance of the `parseInlineVectorContents` loop. -/
def inlineListLoop (data : List Char) (acc : List Value)
    (isFirst : Bool) : Nat → PM Value
  | 0 => fun s => .fail ⟨"out of fuel", s.line⟩ s
  | fuel + 1 => fun s =>
    if doneB data s || getD data s.pos == '\n' || getD data s.pos == '#' then
      (consumeLine data s).andThen fun _ s1 => .ok (.list acc) s1
    else
      (if isFirst then .ok () s else expectComma data s).andThen fun _ s1 =>
      (parseValue data 0 fuel s1).andThen fun v s4 =>
      let acc' := acc ++ [v]
      if !doneB data s4 && getD data s4.pos == ' ' then
        let np := s4.pos + 1 + countWhile (fun c => c == ' ') (data.drop (s4.pos + 1))
        if decide (np < data.length) && getD data np == ',' then
          inlineListLoop data acc' false fuel ⟨np, s4.line⟩
        else (consumeLine data s4).andThen fun _ s5 => .ok (.list acc') s5
      else inlineListLoop data acc' false fuel s4

/-- `parseInlineVector()` (lines 320-338): empty-collection markers, then the
`hasInlineDict` decision. -/
def parseInlineVector (data : List Char) (fuel : Nat) : PM Value := fun s =>
  if peekStringS data s (strL "[]") then
    (consumeLine data (adv s 2)).andThen fun _ s1 => .ok (.list []) s1
  else if peekStringS data s (strL "\x7b\x7d") then
    (consumeLine data (adv s 2)).andThen fun _ s1 => .ok (.dict []) s1
  else if hasInlineDictB data s then inlineDictLoop data [] true fuel s
  else inlineListLoop data [] true fuel s

/-- `getMultilineVectorType(indent)` (lines 278-291): skip blank lines; end
of input or an indent BELOW the expected one is the ambiguous-empty-vector
error; otherwise a leading `-` means list (`true`), anything else dict.
Note no check rejects a LARGER indent here. -/
def getMultilineVectorType (data : List Char) (indent : Nat) (fuel : Nat) :
    PM Bool := fun s =>
  (skipBlankLines data fuel s).andThen fun _ s1 =>
    if doneB data s1 then
      .fail ⟨"ambiguous empty vector after \x27::\x27. Use [] or \x7b\x7d.", s1.line⟩ s1
    else if curIndentOf data s1 < indent then
      .fail ⟨"ambiguous empty vector after \x27::\x27. Use [] or \x7b\x7d.", s1.line⟩ s1
    else .ok (getD data s1.pos == '-') s1

mutual

/-- The `while` loop of `parseMultilineDict(indent)` (lines 190-238) with its
accumulated object.  Keys are checked with the JS `in` operator before the
indicator is parsed; a fresh key is appended in insertion order. -/
def mlDictLoop (data : List Char) (indent : Nat) (acc : List (String × Value)) :
    Nat → PM Value
  | 0 => fun s => .fail ⟨"out of fuel", s.line⟩ s
  | fuel + 1 => fun s =>
    (skipBlankLines data fuel s).andThen fun _ s1 =>
    if doneB data s1 then .ok (.dict acc) s1
    else
      let ci := curIndentOf data s1
      if ci < indent then .ok (.dict acc) s1
      else if !(ci == indent) then
        .fail ⟨"bad indent " ++ Nat.repr ci ++ ", expected " ++ Nat.repr indent, s1.line⟩ s1
      else if !isKeyStartB data s1 then
        .fail ⟨"invalid character \x27" ++ Char.toString (getD data s1.pos) ++
          "\x27, expected key", s1.line⟩ s1
      else
        (parseKey data s1).andThen fun key s2 =>
        if jsIn key acc then
          .fail ⟨"duplicate key \x27" ++ key ++ "\x27 in dict", s2.line⟩ s2
        else
          (parseIndicator data s2).andThen fun isVec s3 =>
          if isVec then
            (parseVector data (ci + 2) fuel s3).andThen fun v s4 =>
              mlDictLoop data indent (acc ++ [(key, v)]) fuel s4
          else
            (assertSpace data "after \x27:\x27" s3).andThen fun _ s4 =>
            let isML := peekStringS data s4 (strL "\x60\x60\x60") ||
                        peekStringS data s4 (strL "\"\"\"")
            (parseValue data ci fuel s4).andThen fun v s5 =>
            if isML then mlDictLoop data indent (acc ++ [(key, v)]) fuel s5
            else
              (consumeLine data s5).andThen fun _ s6 =>
                mlDictLoop data indent (acc ++ [(key, v)]) fuel s6

/-- The `while` loop of `parseMultilineList(indent)` (lines 241-275).  A line
not starting with `-` at the expected indent ends the list.  (The scalar
branch calls `consumeLine` unconditionally, exactly as the source does.) -/
def mlListLoop (data : List Char) (indent : Nat) (acc : List Value) :
    Nat → PM Value
  | 0 => fun s => .fail ⟨"out of fuel", s.line⟩ s
  | fuel + 1 => fun s =>
    (skipBlankLines data fuel s).andThen fun _ s1 =>
    if doneB data s1 then .ok (.list acc) s1
    else
      let ci := curIndentOf data s1
      if ci < indent then .ok (.list acc) s1
      else if !(ci == indent) then
        .fail ⟨"bad indent " ++ Nat.repr ci ++ ", expected " ++ Nat.repr indent, s1.line⟩ s1
      else if !(getD data s1.pos == '-') then .ok (.list acc) s1
      else
        (assertSpace data "after \x27-\x27" (adv s1 1)).andThen fun _ s2 =>
        if peekStringS data s2 (strL "::") then
          (parseVector data (ci + 2) fuel (adv s2 2)).andThen fun v s3 =>
            mlListLoop data indent (acc ++ [v]) fuel s3
        else
          (parseValue data ci fuel s2).andThen fun v s3 =>
          (consumeLine data s3).andThen fun _ s4 =>
            mlListLoop data indent (acc ++ [v]) fuel s4

/-- `parseVector(indent)` (lines 294-317): decide multiline (rest of line is
blank or a comment) versus inline.  For the multiline case the sub-parser is
started at `getCurIndent()` of the first structural line — the ACTUAL indent,
not the expected `indent` passed in, which `getMultilineVectorType` only
bounds from below. -/
def parseVector (data : List Char) (indent : Nat) : Nat → PM Value
  | 0 => fun s => .fail ⟨"out of fuel", s.line⟩ s
  | fuel + 1 => fun s =>
    let startPos := s.pos
    let s1 := skipSpacesSt data s
    if doneB data s1 || getD data s1.pos == '\n' || getD data s1.pos == '#' then
      (consumeLine data ⟨startPos, s1.line⟩).andThen fun _ s2 =>
      (getMultilineVectorType data indent fuel s2).andThen fun isList s3 =>
        let nextIndent := curIndentOf data s3
        if isList then mlListLoop data nextIndent [] fuel s3
        else mlDictLoop data nextIndent [] fuel s3
    else
      (assertSpace data "after \x27::\x27" ⟨startPos, s1.line⟩).andThen fun _ s2 =>
        parseInlineVector data fuel s2

end

/-! ### The root parser (src/huml.js lines 72-187). -/

/-- The root element types (the TYPES table, lines 20-28). -/
inductive RootT where
  | inlineDict
  | multilineDict
  | emptyList
  | emptyDict
  | multilineList
  | inlineList
  | scalar

/-- `getRootType()` (lines 161-178).  `hasKeyValuePair` is state-neutral
(proved below), so its boolean is read off directly. -/
def getRootTypeB (data : List Char) (s : St) : RootT :=
  if hasKVB data s then
    if hasInlineDictAtRootB data s then .inlineDict else .multilineDict
  else if peekStringS data s (strL "[]") then .emptyList
  else if peekStringS data s (strL "\x7b\x7d") then .emptyDict
  else if getD data s.pos == '-' then .multilineList
  else if hasInlineListAtRootB data s then .inlineList
  else .scalar

/-- `assertRootEnd(val, description)` (lines 181-187). -/
def assertRootEnd (data : List Char) (fuel : Nat) (desc : String) (v : Value) :
    PM Value := fun s =>
  (skipBlankLines data fuel s).andThen fun _ s1 =>
    if !doneB data s1 then .fail ⟨"unexpected content after " ++ desc, s1.line⟩ s1
    else .ok v s1

/-- The optional `%HUML` version-declaration handling at the top of
`parse()` (lines 77-99). -/
def versionStep (data : List Char) : PM Unit := fun s =>
  if peekStringS data s (strL "%HUML") then
    let s1 := adv s 5
    if !doneB data s1 && getD data s1.pos == ' ' then
      let s2 := adv s1 1
      let n := countWhile
        (fun c => !(c == ' ' || c == '\n' || c == '#')) (data.drop s2.pos)
      let version := String.mk ((data.drop s2.pos).take n)
      if decide (0 < n) && !(version == "v0.1.0") then
        .fail ⟨"unsupported version \x27" ++ version ++
          "\x27. expected \x27v0.1.0\x27", s2.line⟩ (adv s2 n)
      else consumeLine data (adv s2 n)
    else consumeLine data s1
  else .ok () s

/-- `parse()` (lines 72-158): version header, blank-line skipping, the root
checks, then dispatch on the root type.  (The empty-document case throws a
bare `Error` in JS, without a line; it is recorded here with the current
line.) -/
def parseDoc (data : List Char) (fuel : Nat) : PM Value := fun s =>
  if data.isEmpty then .fail ⟨"empty document is undefined", s.line⟩ s
  else
    (versionStep data s).andThen fun _ s =>
    (skipBlankLines data fuel s).andThen fun _ s =>
    if doneB data s then .fail ⟨"empty doc is undefined", s.line⟩ s
    else if !(curIndentOf data s == 0) then
      .fail ⟨"root element must not be indented", s.line⟩ s
    else if peekStringS data s (strL "::") then
      .fail ⟨"\x27::\x27 indicator not allowed at document root", s.line⟩ s
    else if peekStringS data s (strL ":") && !hasKVB data s then
      .fail ⟨"\x27:\x27 indicator not allowed at document root", s.line⟩ s
    else
      match getRootTypeB data s with
      | .inlineDict =>
        (inlineDictLoop data [] true fuel s).andThen fun v s =>
          assertRootEnd data fuel "root inline dict" v s
      | .multilineDict => mlDictLoop data 0 [] fuel s
      | .emptyList =>
        (consumeLine data (adv s 2)).andThen fun _ s =>
          assertRootEnd data fuel "root list" (.list []) s
      | .emptyDict =>
        (consumeLine data (adv s 2)).andThen fun _ s =>
          assertRootEnd data fuel "root dict" (.dict []) s
      | .multilineList => mlListLoop data 0 [] fuel s
      | .inlineList =>
        (inlineListLoop data [] true fuel s).andThen fun v s =>
          assertRootEnd data fuel "root inline list" v s
      | .scalar =>
        (parseValue data 0 fuel s).andThen fun v s =>
        (consumeLine data s).andThen fun _ s =>
          assertRootEnd data fuel "root scalar value" v s

/-- `parse(data)` (the exported decoder entry point): run the parser from
offset 0, line 1, with fuel far above what any run on the given input can
consume.  (The `typeof data !== 'string'` ContractError is ruled out by
typing.) -/
def decode (input : String) : Res Value :=
  parseDoc input.data (4 * input.length + 64) ⟨0, 1⟩

/-! ### The encoder (the stringify module).  It builds a `lines` array and
appends to its last element with `lines[lines.length - 1] += text`. -/

namespace Enc

/-- `lines[lines.length - 1] += text`.  On an empty array the JS assignment
writes to index `-1`, a plain property ignored by `join`; the append is then
simply lost (that only happens for a root-level scalar, not exercised by the
claims here). -/
def appendLast : List String → String → List String
  | [], _ => []
  | [l], text => [l ++ text]
  | l :: ls, text => l :: appendLast ls text

/-- `' '.repeat(n)`.  (For a negative JS argument `repeat` throws a
RangeError; `Nat` subtraction at the call sites truncates to 0 instead —
the only such site is the `indent - 2` of a root-level multiline string,
which no claim exercises.) -/
def spaces (n : Nat) : String := String.mk (List.replicate n ' ')

/-- `formatNumber(num)`: special floats by name, integers in decimal
(`String(num)`), finite non-integer floats by their literal token (see
`JSNum.floatTok`). -/
def formatNumber : JSNum → String
  | .nan => "nan"
  | .inf => "inf"
  | .negInf => "-inf"
  | .int n => ToString.toString n
  | .floatTok t => t

/-- Four lowercase hex digits. -/
def hex4 (n : Nat) : List Char :=
  let dig := fun k => getD (strL "0123456789abcdef") (k % 16)
  [dig (n / 4096), dig (n / 256), dig (n / 16), dig n]

/-- Model of `JSON.stringify` applied to a string: quote and escape per the
JSON `Quote` operation (lone surrogates are not modelled). -/
def escJSON : List Char → List Char
  | [] => []
  | c :: r =>
    (if c == '"' then ['\\', '"']
     else if c == '\\' then ['\\', '\\']
     else if c == '\n' then ['\\', 'n']
     else if c == '\r' then ['\\', 'r']
     else if c == '\t' then ['\\', 't']
     else if c == '\x08' then ['\\', 'b']
     else if c == '\x0c' then ['\\', 'f']
     else if decide (c.toNat < 32) then '\\' :: 'u' :: hex4 c.toNat
     else [c]) ++ escJSON r

/-- `JSON.stringify(str)`. -/
def jsonStringify (s : String) : String :=
  String.mk ('"' :: escJSON s.data ++ ['"'])

/-- `BARE_KEY_REGEX.test(key)`: `^[a-zA-Z][a-zA-Z0-9_-]*$`. -/
def bareKeyTest (k : String) : Bool :=
  match k.data with
  | [] => false
  | c :: rest => isAlphaC c && rest.all isKeyCharC

/-- `quoteKey(key)`. -/
def quoteKey (k : String) : String :=
  if bareKeyTest k then k else jsonStringify k

/-- `isVector(value)`: a (non-null) array or plain object. -/
def isVector : Value → Bool
  | .list _ => true
  | .dict _ => true
  | _ => false

/-- `isEmptyVector(value)`. -/
def isEmptyVector : Value → Bool
  | .list items => items.isEmpty
  | .dict entries => entries.isEmpty
  | _ => false

/-- Lexicographic comparison of character lists by code point (helper for
the `localeCompare` model). -/
def cmpPrim : List Char → List Char → Int
  | [], [] => 0
  | [], _ :: _ => -1
  | _ :: _, [] => 1
  | x :: xs, y :: ys =>
    if x.toNat < y.toNat then -1
    else if y.toNat < x.toNat then 1
    else cmpPrim xs ys

/-- Case weight used by the root collation: lowercase before uppercase. -/
def caseRank (c : Char) : Nat := if 65 ≤ c.toNat && c.toNat ≤ 90 then 1 else 0

/-- Positionwise case-weight comparison (helper for `localeCompare`). -/
def cmpCase : List Char → List Char → Int
  | [], [] => 0
  | [], _ :: _ => -1
  | _ :: _, [] => 1
  | x :: xs, y :: ys =>
    if caseRank x < caseRank y then -1
    else if caseRank y < caseRank x then 1
    else cmpCase xs ys

/-- Both comparison passes above are the same lexicographic three-way
comparison, differing only in the per-character weight; this generic form
carries the order theory (totality, antisymmetry, transitivity) proved
below once for both. -/
def cmpBy (k : Char → Nat) : List Char → List Char → Int
  | [], [] => 0
  | [], _ :: _ => -1
  | _ :: _, [] => 1
  | x :: xs, y :: ys =>
    if k x < k y then -1
    else if k y < k x then 1
    else cmpBy k xs ys

/-- Model of `a.localeCompare(b)` under the default (root) ICU collation as
shipped with Node, restricted to the ASCII alphanumeric keys used in this
development: the primary weight is the case-folded character sequence, and
equal primaries are tie-broken lowercase-before-uppercase position by
position.  In particular `'a'.localeCompare('B') < 0` although `'B' < 'a'`
in code-unit order. -/
def localeCompare (a b : String) : Int :=
  let p := cmpPrim (a.data.map Char.toLower) (b.data.map Char.toLower)
  if p == 0 then cmpCase a.data b.data else p

/-- Insert an entry into a sorted list, after all entries that do not
compare greater — the stable order produced by the (spec-mandated stable)
`Array.prototype.sort` with the comparator `([a],[b]) => a.localeCompare(b)`
(line 100 of the encoder). -/
def insertEntry (e : String × Value) :
    List (String × Value) → List (String × Value)
  | [] => [e]
  | y :: ys =>
    if localeCompare e.1 y.1 ≤ 0 then e :: y :: ys
    else y :: insertEntry e ys

/-- `entries.sort(([a],[b]) => a.localeCompare(b))` as a stable sort. -/
def sortEntries : List (String × Value) → List (String × Value)
  | [] => []
  | e :: es => insertEntry e (sortEntries es)

/-- `toString(str, indent, lines)` of the encoder (named `encodeString` here
to avoid clashing with Lean's `toString`): a string containing a newline is
written as an indentation-preserving fenced block with content re-indented
at `indent` and the closing fence at `indent - 2`; otherwise a JSON-quoted
single line. -/
def encodeString (str : String) (indent : Nat) (lines : List String) : List String :=
  if containsSub str.data ['\n'] then
    let keyIndent := indent - 2
    let contentIndent := indent
    let lines := appendLast lines "\x60\x60\x60"
    let strLines := splitNL str.data
    let strLines :=
      if !strLines.isEmpty && (strLines.getLastD []).isEmpty then
        strLines.dropLast
      else strLines
    let lines := lines ++ strLines.map (fun l => spaces contentIndent ++ String.mk l)
    lines ++ [spaces keyIndent ++ "\x60\x60\x60"]
  else appendLast lines (jsonStringify str)

mutual

/-- `toValue(value, indent, lines, isRootLevel)`: dispatch on the value
shape.  (JS `undefined` also maps to `null`; the unsupported-type throw is
unreachable for `Value`.) -/
def toValue : Nat → Value → Nat → List String → Bool → List String
  | 0, _, _, lines, _ => lines
  | fuel + 1, v, indent, lines, isRoot =>
    match v with
    | .null => appendLast lines "null"
    | .bool b => appendLast lines (if b then "true" else "false")
    | .num n => appendLast lines (formatNumber n)
    | .str str => encodeString str indent lines
    | .list arr => toArray fuel arr indent lines isRoot
    | .dict obj => toObject fuel obj indent lines isRoot
termination_by structural fuel => fuel

/-- `toArray(arr, indent, lines, isRootLevel)`. -/
def toArray : Nat → List Value → Nat → List String → Bool → List String
  | 0, _, _, lines, _ => lines
  | fuel + 1, arr, indent, lines, isRoot =>
    if arr.isEmpty then appendLast lines "[]"
    else arrItems fuel arr (if isRoot then 0 else indent) lines
termination_by structural fuel => fuel

/-- The `arr.forEach` body of `toArray`, one item per step. -/
def arrItems : Nat → List Value → Nat → List String → List String
  | 0, _, _, lines => lines
  | _ + 1, [], _, lines => lines
  | fuel + 1, item :: rest, itemIndent, lines =>
    let lines := lines ++ [spaces itemIndent ++ "- "]
    let lines :=
      if isVector item then
        toValue fuel item (itemIndent + 2) (appendLast lines "::") false
      else toValue fuel item itemIndent lines false
    arrItems fuel rest itemIndent lines
termination_by structural fuel => fuel

/-- `toObject(obj, indent, lines, isRootLevel)`: sort the entries with
`localeCompare`, then write each pair. -/
def toObject : Nat → List (String × Value) → Nat → List String → Bool → List String
  | 0, _, _, lines, _ => lines
  | fuel + 1, entries, indent, lines, isRoot =>
    if entries.isEmpty then appendLast lines "\x7b\x7d"
    else objItems fuel (sortEntries entries) (if isRoot then 0 else indent) lines
termination_by structural fuel => fuel

/-- The `entries.forEach` body of `toObject`, one pair per step. -/
def objItems : Nat → List (String × Value) → Nat → List String → List String
  | 0, _, _, lines => lines
  | _ + 1, [], _, lines => lines
  | fuel + 1, e :: rest, keyIndent, lines =>
    objItems fuel rest keyIndent (writeKeyValuePair fuel e.1 e.2 keyIndent lines)
termination_by structural fuel => fuel

/-- `writeKeyValuePair(key, value, indent, lines)`. -/
def writeKeyValuePair : Nat → String → Value → Nat → List String → List String
  | 0, _, _, _, lines => lines
  | fuel + 1, key, value, indent, lines =>
    let lines := lines ++ [spaces indent ++ quoteKey key]
    let lines := appendLast lines
      (if isVector value then (if isEmptyVector value then ":: " else "::") else ": ")
    toValue fuel value (indent + 2) lines false
termination_by structural fuel => fuel

end

/-- `stringify(obj, cfg)`: optional version header, encode from the root,
final newline, join. -/
def stringify (obj : Value) (includeVersion : Bool) : String :=
  let lines : List String := if includeVersion then ["%HUML v0.1.0", ""] else []
  let lines := toValue 1000000 obj 0 lines true
  String.intercalate "\n" (lines ++ [""])

end Enc

/-- The value `{a: "` ++ three backticks ++ `\nx"}` used for claim C1: it is
produced by the decoder from `c1SourceDoc` below, yet its encoding is
rejected by the decoder. -/
def c1Value : Value := .dict [("a", .str "\x60\x60\x60\nx")]

/-- A document whose decoding yields `c1Value` (the string value contains
the three-backtick sequence and an escaped newline). -/
def c1SourceDoc : String := "a: \"\x60\x60\x60\\nx\"\n"

/-- The text `stringify` produces for `c1Value`: the multiline block's first
content line starts with the fence characters at indent 2. -/
def c1Encoded : String :=
  "a: \x60\x60\x60\n  \x60\x60\x60\n  x\n\x60\x60\x60\n"

/-! ## Theorems -/

/-- `parseStringPM` never changes the line counter (its loop advances only
`pos`; a raw newline makes it throw without consuming the newline). -/
theorem stLine_parseStringPM (data : List Char) (s : St) :
    stLine (parseStringPM data s) = s.line := by
  unfold parseStringPM
  cases strScan (data.drop (s.pos + 1)) <;> rfl

/-- `parseKey` never changes the line counter: `skipSpaces`, the quoted-key
trial and the bare-identifier scan all move only `pos`. -/
theorem stLine_parseKey (data : List Char) (s : St) :
    stLine (parseKey data s) = s.line := by
  simp only [parseKey]
  split
  · exact stLine_parseStringPM data _
  · split <;> rfl

/-- C9: the lookahead predicate `hasKeyValuePair` is non-destructive: for
every document and every starting state it returns a boolean and leaves the
parser state (offset and line counter) exactly as it found it, whether the
trial key-parse succeeds or throws.  (The other three predicates of the
Disambiguation Oracle — `hasInlineDict`, `hasInlineListAtRoot`,
`hasInlineDictAtRoot` — contain no state write in the source at all and are
embedded as the read-only functions `hasInlineDictB`,
`hasInlineListAtRootB`, `hasInlineDictAtRootB` of the state, so their frame
property holds by construction.) -/
theorem c9_lookahead_restores_state (data : List Char) (s : St) :
    ∃ b, hasKeyValuePair data s = .ok b s := by
  have hl := stLine_parseKey data s
  unfold hasKeyValuePair
  cases h : parseKey data s with
  | ok k t =>
    rw [h] at hl
    simp only [stLine] at hl
    refine ⟨!doneB data t && getD data t.pos == ':', ?_⟩
    show Res.ok (!doneB data t && getD data t.pos == ':') ⟨s.pos, t.line⟩ =
      Res.ok (!doneB data t && getD data t.pos == ':') s
    rw [hl]
  | fail e t =>
    rw [h] at hl
    simp only [stLine] at hl
    refine ⟨false, ?_⟩
    show Res.ok false ⟨s.pos, t.line⟩ = Res.ok false s
    rw [hl]

/-- C2 (counterexample): a `::` continuation indented FOUR spaces past a
root key (expected indent 2) is not rejected — it decodes successfully, the
nested dict being parsed at the deeper indent.  This refutes the claim that
any indent other than `i+2` is an error. -/
theorem c2_deeper_indent_accepted :
    resVal (decode "a::\n    b: 1\n") =
      some (.dict [("a", .dict [("b", .num (.int 1))])]) := rfl

/-- C2 (amended): after `::` with a multiline continuation at expected
indent `i+2`, a first structural line sitting at an indent BELOW the
expected one is rejected with the ambiguous-empty-vector error; any indent
at or above the expected one is accepted, and the collection is parsed at
the line's actual indent (three spaces in the concrete conjunct) rather
than being forced to `i+2`. -/
theorem c2_amended_indent_rule :
    (∀ (data : List Char) (indent fuel : Nat) (s s1 : St),
        skipBlankLines data fuel s = .ok () s1 →
        doneB data s1 = false →
        curIndentOf data s1 < indent →
        getMultilineVectorType data indent fuel s =
          .fail ⟨"ambiguous empty vector after \x27::\x27. Use [] or \x7b\x7d.",
            s1.line⟩ s1) ∧
    resVal (decode "a::\n   b: 1\n") =
      some (.dict [("a", .dict [("b", .num (.int 1))])]) := by
  constructor
  · intro data indent fuel s s1 h1 h2 h3
    unfold getMultilineVectorType
    rw [h1]
    simp only [Res.andThen]
    rw [h2]
    simp [h3]
  · rfl

/-- Witness for the hypotheses of `c2_amended_indent_rule`: on the one-line
document `x` the blank-line skip succeeds in place, the input is not
exhausted, and the current indent 0 is below the expected indent 1, so
`getMultilineVectorType` raises the ambiguous-empty-vector error. -/
theorem c2_amended_indent_rule_witness :
    getMultilineVectorType (strL "x") 1 1 ⟨0, 1⟩ =
      .fail ⟨"ambiguous empty vector after \x27::\x27. Use [] or \x7b\x7d.", 1⟩
        ⟨0, 1⟩ :=
  c2_amended_indent_rule.1 (strL "x") 1 1 ⟨0, 1⟩ ⟨0, 1⟩ rfl rfl (by decide)

/-- C3 (counterexample): an inline dict at the document root with the key
`a` twice decodes successfully to `{a: 2}` — the second occurrence silently
overwrites the first instead of raising a duplicate-key error. -/
theorem c3_inline_duplicate_overwrites :
    resVal (decode "a: 1, a: 2") = some (.dict [("a", .num (.int 2))]) := rfl

/-- C3 (amended): MULTILINE dicts do reject a repeated key: whenever the
dict loop parses a key that is already present in the accumulated object
(present in the sense of the JS `in` operator), it fails with the
duplicate-key error at that occurrence's line.  INLINE dicts perform no
duplicate check at all: the last occurrence silently overwrites, as the
concrete conjunct shows for a nested inline dict. -/
theorem c3_amended_duplicate_handling :
    (∀ (data : List Char) (indent fuel : Nat) (acc : List (String × Value))
        (s s1 s2 : St) (key : String),
        skipBlankLines data fuel s = .ok () s1 →
        doneB data s1 = false →
        curIndentOf data s1 = indent →
        isKeyStartB data s1 = true →
        parseKey data s1 = .ok key s2 →
        jsIn key acc = true →
        mlDictLoop data indent acc (fuel + 1) s =
          .fail ⟨"duplicate key \x27" ++ key ++ "\x27 in dict", s2.line⟩ s2) ∧
    resVal (decode "b:: a: 1, a: 2\n") =
      some (.dict [("b", .dict [("a", .num (.int 2))])]) := by
  constructor
  · intro data indent fuel acc s s1 s2 key h1 h2 h3 h4 h5 h6
    unfold mlDictLoop
    rw [h1]
    simp only [Res.andThen]
    rw [h2, h3]
    simp only [Nat.lt_irrefl, if_false, beq_self_eq_true, Bool.not_true,
      Bool.false_eq_true, if_true, if_false]
    rw [h4]
    simp only [Bool.not_true, Bool.false_eq_true, if_false]
    rw [h5]
    simp only [Res.andThen]
    rw [h6]
    simp
  · rfl

/-- Witness for the hypotheses of `c3_amended_duplicate_handling`: in the
document `a: 1` newline `a: 2`, at the start of the second line with `a`
already accumulated, the loop fails with the duplicate-key error at line
2. -/
theorem c3_amended_duplicate_handling_witness :
    mlDictLoop (strL "a: 1\na: 2\n") 0 [("a", .num (.int 1))] 6 ⟨5, 2⟩ =
      .fail ⟨"duplicate key \x27a\x27 in dict", 2⟩ ⟨6, 2⟩ :=
  c3_amended_duplicate_handling.1 (strL "a: 1\na: 2\n") 0 5
    [("a", .num (.int 1))] ⟨5, 2⟩ ⟨5, 2⟩ ⟨6, 2⟩ "a" rfl rfl rfl rfl rfl rfl

/-- C1 (code bug): the value `{a: "` three-backticks `\nx"}` is valid
decoder output — the first conjunct decodes `c1SourceDoc` to exactly this
value.  Encoding it produces `c1Encoded`, whose second line consists of two
spaces followed by the fence characters; the decoder's closing-fence
detection fires on that CONTENT line and rejects the document with a
closing-delimiter-indentation error at line 2.  So `decode(encode(v))`
fails for a decoder-produced `v`, contradicting the round-trip claim. -/
theorem c1_encoder_output_rejected_by_decoder :
    resVal (decode c1SourceDoc) = some c1Value ∧
    Enc.stringify c1Value false = c1Encoded ∧
    resErr (decode c1Encoded) =
      some ("multiline closing delimiter must be at same indentation as the key (0 spaces)",
        2) :=
  ⟨rfl, rfl, rfl⟩

/-- C4 (code bug): the dict-versus-list decision for an inline vector is NOT
confined to the current logical line.  `a:: 1, 2` followed by `b: 3` on the
NEXT line is classified as an inline dict (the scan reaches the colon of
`b:`), and decoding fails at line 1; the same vector line with nothing after
it decodes to the list `[1, 2]`.  The last two conjuncts exhibit the scan
itself: an un-doubled colon after the newline flips its verdict. -/
theorem c4_inline_lookahead_crosses_lines :
    resErr (decode "a:: 1, 2\nb: 3\n") =
      some ("expected \x27:\x27 in inline dict", 1) ∧
    resVal (decode "a:: 1, 2\n") =
      some (.dict [("a", .list [.num (.int 1), .num (.int 2)])]) ∧
    hasInlineDictScan (strL "1, 2\nb: 3\n") = true ∧
    hasInlineDictScan (strL "1, 2\n") = false :=
  ⟨rfl, rfl, rfl, rfl⟩

/-- C5 (code bug): a final line with no terminating newline that ends in a
comment followed by exactly ONE trailing space is accepted — `1 # x ` (with
a trailing space) decodes to the integer 1.  The `remLine` check builds
`slice(pos, indexOf('\n', pos))`, and the `-1` end index on the last line
drops the final character, hiding a single trailing space.  The same line
with a terminating newline, or with two trailing spaces, is rejected at
line 1 as the claim demands. -/
theorem c5_trailing_space_on_final_comment_line_accepted :
    resVal (decode "1 # x ") = some (.num (.int 1)) ∧
    resErr (decode "1 # x \n") = some ("trailing spaces are not allowed", 1) ∧
    resErr (decode "1 # x  ") = some ("trailing spaces are not allowed", 1) :=
  ⟨rfl, rfl, rfl⟩

/-- C6 (counterexample): an underscore inside a base-prefixed literal is NOT
stripped — the digit scan of `parseBase` stops at it, and the leftover
`_F` makes the decode of `0xF_F` fail instead of yielding 255. -/
theorem c6_base_underscore_rejected :
    resErr (decode "0xF_F") = some ("unexpected content at end of line", 1) :=
  rfl

/-- C6 (amended): base-prefixed literals decode to Integers — `0xFF` to 255,
`0o17` to 15, `0b101` to 5 — and at least one digit is required after the
prefix.  Underscore separators are not accepted (the digit validators
exclude them, making the underscore-stripping step unreachable for base
literals).  A signed literal parses in value position (`k: -0x10` gives
−16); a bare `-0x10` document is classified as a multiline list by the
leading `-` and rejected before number parsing. -/
theorem c6_amended_base_literals :
    resVal (decode "0xFF") = some (.num (.int 255)) ∧
    resVal (decode "0o17") = some (.num (.int 15)) ∧
    resVal (decode "0b101") = some (.num (.int 5)) ∧
    resVal (decode "k: -0x10\n") = some (.dict [("k", .num (.int (-16)))]) ∧
    resErr (decode "-0x10") = some ("expected single space after \x27-\x27", 1) ∧
    resErr (decode "0x") =
      some ("invalid number literal, requires digits after prefix", 1) :=
  ⟨rfl, rfl, rfl, rfl, rfl, rfl⟩

/-- `cmpPrim` is the generic comparison at the code-point weight. -/
theorem cmpPrim_eq_cmpBy (x y : List Char) :
    Enc.cmpPrim x y = Enc.cmpBy Char.toNat x y := by
  induction x generalizing y with
  | nil => cases y <;> rfl
  | cons c xs ih =>
    cases y with
    | nil => rfl
    | cons d ys => simp only [Enc.cmpPrim, Enc.cmpBy, ih ys]

/-- `cmpCase` is the generic comparison at the case weight. -/
theorem cmpCase_eq_cmpBy (x y : List Char) :
    Enc.cmpCase x y = Enc.cmpBy Enc.caseRank x y := by
  induction x generalizing y with
  | nil => cases y <;> rfl
  | cons c xs ih =>
    cases y with
    | nil => rfl
    | cons d ys => simp only [Enc.cmpCase, Enc.cmpBy, ih ys]

/-- The three-way comparison only takes the values −1, 0, 1. -/
theorem cmpBy_cases (k : Char → Nat) (x y : List Char) :
    Enc.cmpBy k x y = -1 ∨ Enc.cmpBy k x y = 0 ∨ Enc.cmpBy k x y = 1 := by
  induction x generalizing y with
  | nil => cases y <;> simp [Enc.cmpBy]
  | cons c xs ih =>
    cases y with
    | nil => simp [Enc.cmpBy]
    | cons d ys =>
      simp only [Enc.cmpBy]
      split
      · exact Or.inl rfl
      · split
        · exact Or.inr (Or.inr rfl)
        · exact ih ys

/-- Antisymmetry of the three-way comparison. -/
theorem cmpBy_antisymm (k : Char → Nat) (x y : List Char) :
    Enc.cmpBy k y x = -Enc.cmpBy k x y := by
  induction x generalizing y with
  | nil => cases y <;> simp [Enc.cmpBy]
  | cons c xs ih =>
    cases y with
    | nil => simp [Enc.cmpBy]
    | cons d ys =>
      simp only [Enc.cmpBy]
      rcases Nat.lt_trichotomy (k c) (k d) with h | h | h
      · have h2 : ¬ k d < k c := by omega
        simp [h, h2]
      · have h1 : ¬ k c < k d := by omega
        have h2 : ¬ k d < k c := by omega
        simp [h1, h2, ih ys]
      · have h2 : ¬ k c < k d := by omega
        simp [h, h2]

/-- The comparison only looks at the weights: equal weight sequences on the
left give equal results. -/
theorem cmpBy_congr_left (k : Char → Nat) (x x' y : List Char)
    (h : x.map k = x'.map k) : Enc.cmpBy k x y = Enc.cmpBy k x' y := by
  induction x generalizing x' y with
  | nil =>
    cases x' with
    | nil => rfl
    | cons _ _ => simp at h
  | cons c xs ih =>
    cases x' with
    | nil => simp at h
    | cons c' xs' =>
      simp only [List.map_cons, List.cons.injEq] at h
      cases y with
      | nil => rfl
      | cons d ys => simp only [Enc.cmpBy, h.1, ih xs' ys h.2]

/-- A zero comparison means the weight sequences agree. -/
theorem cmpBy_eq_zero (k : Char → Nat) (x y : List Char)
    (h : Enc.cmpBy k x y = 0) : x.map k = y.map k := by
  induction x generalizing y with
  | nil =>
    cases y with
    | nil => rfl
    | cons _ _ => simp [Enc.cmpBy] at h
  | cons c xs ih =>
    cases y with
    | nil => simp [Enc.cmpBy] at h
    | cons d ys =>
      simp only [Enc.cmpBy] at h
      by_cases h1 : k c < k d
      · simp [h1] at h
      · by_cases h2 : k d < k c
        · simp [h1, h2] at h
        · have hcd : k c = k d := by omega
          have h' : Enc.cmpBy k xs ys = 0 := by simpa [h1, h2] using h
          simp only [List.map_cons, hcd, ih ys h']

/-- Transitivity of the strict comparison. -/
theorem cmpBy_lt_trans (k : Char → Nat) (x y z : List Char)
    (h1 : Enc.cmpBy k x y = -1) (h2 : Enc.cmpBy k y z = -1) :
    Enc.cmpBy k x z = -1 := by
  induction x generalizing y z with
  | nil =>
    cases y with
    | nil => simp [Enc.cmpBy] at h1
    | cons d ys =>
      cases z with
      | nil => simp [Enc.cmpBy] at h2
      | cons e zs => simp [Enc.cmpBy]
  | cons c xs ih =>
    cases y with
    | nil => simp [Enc.cmpBy] at h1
    | cons d ys =>
      cases z with
      | nil => simp [Enc.cmpBy] at h2
      | cons e zs =>
        simp only [Enc.cmpBy] at h1 h2 ⊢
        by_cases hcd : k c < k d
        · by_cases hde : k d < k e
          · have hce : k c < k e := by omega
            simp [hce]
          · by_cases hed : k e < k d
            · simp [hde, hed] at h2
            · have hce : k c < k e := by omega
              simp [hce]
        · by_cases hdc : k d < k c
          · simp [hcd, hdc] at h1
          · by_cases hde : k d < k e
            · have hce : k c < k e := by omega
              simp [hce]
            · by_cases hed : k e < k d
              · simp [hde, hed] at h2
              · have h1' : Enc.cmpBy k xs ys = -1 := by simpa [hcd, hdc] using h1
                have h2' : Enc.cmpBy k ys zs = -1 := by simpa [hde, hed] using h2
                have hce1 : ¬ k c < k e := by omega
                have hce2 : ¬ k e < k c := by omega
                simp [hce1, hce2, ih ys zs h1' h2']

/-- Transitivity of the non-strict comparison. -/
theorem cmpBy_le_trans (k : Char → Nat) (x y z : List Char)
    (h1 : Enc.cmpBy k x y ≤ 0) (h2 : Enc.cmpBy k y z ≤ 0) :
    Enc.cmpBy k x z ≤ 0 := by
  rcases cmpBy_cases k x y with hxy | hxy | hxy
  · rcases cmpBy_cases k y z with hyz | hyz | hyz
    · have := cmpBy_lt_trans k x y z hxy hyz
      omega
    · have hmap := cmpBy_eq_zero k y z hyz
      have e1 := cmpBy_antisymm k x z
      have e2 := cmpBy_antisymm k x y
      have e3 := cmpBy_congr_left k z y x hmap.symm
      omega
    · omega
  · have hmap := cmpBy_eq_zero k x y hxy
    have := cmpBy_congr_left k x y z hmap
    omega
  · omega

/-- Antisymmetry of the `localeCompare` model: swapping the arguments
negates the result. -/
theorem localeCompare_antisymm (a b : String) :
    Enc.localeCompare b a = -Enc.localeCompare a b := by
  simp only [Enc.localeCompare, cmpPrim_eq_cmpBy, cmpCase_eq_cmpBy]
  rw [cmpBy_antisymm Char.toNat (a.data.map Char.toLower) (b.data.map Char.toLower),
    cmpBy_antisymm Enc.caseRank a.data b.data]
  rcases eq_or_ne
      (Enc.cmpBy Char.toNat (a.data.map Char.toLower) (b.data.map Char.toLower)) 0 with
    hp | hp
  · simp [hp]
  · have h1 : -Enc.cmpBy Char.toNat (a.data.map Char.toLower)
        (b.data.map Char.toLower) ≠ 0 := by omega
    simp [beq_iff_eq, hp, h1]

/-- Transitivity of the `localeCompare` model (primary comparison first,
case comparison on primary ties). -/
theorem localeCompare_trans (a b c : String)
    (h1 : Enc.localeCompare a b ≤ 0) (h2 : Enc.localeCompare b c ≤ 0) :
    Enc.localeCompare a c ≤ 0 := by
  simp only [Enc.localeCompare, cmpPrim_eq_cmpBy, cmpCase_eq_cmpBy] at h1 h2 ⊢
  rcases eq_or_ne
      (Enc.cmpBy Char.toNat (a.data.map Char.toLower) (b.data.map Char.toLower)) 0 with
    hab | hab
  · have hmap := cmpBy_eq_zero Char.toNat _ _ hab
    have hcongr := cmpBy_congr_left Char.toNat
      (a.data.map Char.toLower) (b.data.map Char.toLower)
      (c.data.map Char.toLower) hmap
    simp only [beq_iff_eq, hab, if_true, if_pos rfl] at h1
    rcases eq_or_ne
        (Enc.cmpBy Char.toNat (b.data.map Char.toLower) (c.data.map Char.toLower)) 0 with
      hbc | hbc
    · have hac : Enc.cmpBy Char.toNat (a.data.map Char.toLower)
          (c.data.map Char.toLower) = 0 := by rw [hcongr, hbc]
      simp only [beq_iff_eq, hbc, if_pos rfl] at h2
      simp only [beq_iff_eq, hac, if_pos rfl]
      exact cmpBy_le_trans Enc.caseRank a.data b.data c.data h1 h2
    · simp only [beq_iff_eq, hbc, if_neg hbc] at h2
      rw [hcongr]
      simp only [beq_iff_eq, if_neg hbc]
      exact h2
  · simp only [beq_iff_eq, if_neg hab] at h1
    rcases eq_or_ne
        (Enc.cmpBy Char.toNat (b.data.map Char.toLower) (c.data.map Char.toLower)) 0 with
      hbc | hbc
    · have hmap := cmpBy_eq_zero Char.toNat _ _ hbc
      have hswap : Enc.cmpBy Char.toNat (a.data.map Char.toLower)
          (c.data.map Char.toLower) =
          Enc.cmpBy Char.toNat (a.data.map Char.toLower) (b.data.map Char.toLower) := by
        have e1 := cmpBy_antisymm Char.toNat
          (a.data.map Char.toLower) (c.data.map Char.toLower)
        have e2 := cmpBy_antisymm Char.toNat
          (a.data.map Char.toLower) (b.data.map Char.toLower)
        have e3 := cmpBy_congr_left Char.toNat
          (c.data.map Char.toLower) (b.data.map Char.toLower)
          (a.data.map Char.toLower) hmap.symm
        omega
      rw [hswap]
      simp only [beq_iff_eq, if_neg hab]
      exact h1
    · simp only [beq_iff_eq, if_neg hbc] at h2
      have hxy : Enc.cmpBy Char.toNat (a.data.map Char.toLower)
          (b.data.map Char.toLower) = -1 := by
        rcases cmpBy_cases Char.toNat
          (a.data.map Char.toLower) (b.data.map Char.toLower) with h | h | h
        · exact h
        · exact absurd h hab
        · omega
      have hyz : Enc.cmpBy Char.toNat (b.data.map Char.toLower)
          (c.data.map Char.toLower) = -1 := by
        rcases cmpBy_cases Char.toNat
          (b.data.map Char.toLower) (c.data.map Char.toLower) with h | h | h
        · exact h
        · exact absurd h hbc
        · omega
      have hlt := cmpBy_lt_trans Char.toNat _ _ _ hxy hyz
      simp [beq_iff_eq, hlt]

/-- `insertEntry` inserts without losing or duplicating elements. -/
theorem perm_insertEntry (e : String × Value) (l : List (String × Value)) :
    (Enc.insertEntry e l).Perm (e :: l) := by
  induction l with
  | nil => exact List.Perm.refl _
  | cons y ys ih =>
    simp only [Enc.insertEntry]
    split
    · exact List.Perm.refl _
    · exact (ih.cons y).trans (List.Perm.swap e y ys)

/-- `sortEntries` permutes its input. -/
theorem perm_sortEntries (l : List (String × Value)) :
    (Enc.sortEntries l).Perm l := by
  induction l with
  | nil => exact List.Perm.refl _
  | cons e es ih => exact (perm_insertEntry e (Enc.sortEntries es)).trans (ih.cons e)

/-- Inserting into a `localeCompare`-sorted list keeps it sorted. -/
theorem pairwise_insertEntry (e : String × Value) (l : List (String × Value))
    (hl : l.Pairwise fun f g => Enc.localeCompare f.1 g.1 ≤ 0) :
    (Enc.insertEntry e l).Pairwise fun f g => Enc.localeCompare f.1 g.1 ≤ 0 := by
  induction l with
  | nil => simp [Enc.insertEntry]
  | cons y ys ih =>
    rcases List.pairwise_cons.mp hl with ⟨hy, hys⟩
    simp only [Enc.insertEntry]
    split
    · rename_i hcond
      refine List.Pairwise.cons ?_ hl
      intro z hz
      rcases List.mem_cons.mp hz with rfl | hz'
      · exact hcond
      · exact localeCompare_trans _ _ _ hcond (hy z hz')
    · rename_i hcond
      refine List.Pairwise.cons ?_ (ih hys)
      intro z hz
      rcases List.mem_cons.mp ((perm_insertEntry e ys).mem_iff.mp hz) with rfl | hz'
      · have hanti := localeCompare_antisymm z.1 y.1
        omega
      · exact hy z hz'

/-- The output of `sortEntries` is sorted: every key compares at most 0
against every later key under the `localeCompare` model. -/
theorem pairwise_sortEntries (l : List (String × Value)) :
    (Enc.sortEntries l).Pairwise fun f g => Enc.localeCompare f.1 g.1 ≤ 0 := by
  induction l with
  | nil => simp [Enc.sortEntries]
  | cons e es ih => exact pairwise_insertEntry e (Enc.sortEntries es) ih

/-- Two sorted lists that are permutations of each other and contain no
comparator ties are equal. -/
theorem sorted_perm_eq :
    ∀ l1 l2 : List (String × Value), l1.Perm l2 →
      l1.Pairwise (fun f g => Enc.localeCompare f.1 g.1 ≤ 0) →
      l2.Pairwise (fun f g => Enc.localeCompare f.1 g.1 ≤ 0) →
      l1.Pairwise (fun f g => Enc.localeCompare f.1 g.1 ≠ 0) →
      l1 = l2 := by
  intro l1
  induction l1 with
  | nil =>
    intro l2 hp _ _ _
    exact (hp.symm.eq_nil).symm
  | cons a t1 ih =>
    intro l2 hp hs1 hs2 hd
    cases l2 with
    | nil => exact absurd hp.eq_nil (by simp)
    | cons b t2 =>
      rcases List.pairwise_cons.mp hs1 with ⟨ha, ht1⟩
      rcases List.pairwise_cons.mp hs2 with ⟨hb, ht2⟩
      rcases List.pairwise_cons.mp hd with ⟨hda, hdt1⟩
      by_cases hab : a = b
      · subst hab
        rw [ih t2 hp.cons_inv ht1 ht2 hdt1]
      · have ha2 : a ∈ t2 := by
          rcases List.mem_cons.mp (hp.mem_iff.mp (List.mem_cons_self a t1)) with h | h
          · exact absurd h hab
          · exact h
        have hb2 : b ∈ t1 := by
          rcases List.mem_cons.mp (hp.symm.mem_iff.mp (List.mem_cons_self b t2)) with h | h
          · exact absurd h.symm hab
          · exact h
        have h1 : Enc.localeCompare a.1 b.1 ≤ 0 := ha b hb2
        have h2 : Enc.localeCompare b.1 a.1 ≤ 0 := hb a ha2
        have h0 : Enc.localeCompare a.1 b.1 = 0 := by
          have := localeCompare_antisymm a.1 b.1
          omega
        exact absurd h0 (hda b hb2)

/-- C7 (counterexample): the encoder orders keys with `localeCompare`, not
with lexicographic (code-unit) comparison.  For the keys `B` and `a`,
code-unit order puts `B` first (the second conjunct: the primary code-point
comparison of `B` against `a` is negative), yet the emitted document lists
`a` before `B`. -/
theorem c7_locale_order_not_lexicographic :
    Enc.stringify (.dict [("B", .num (.int 1)), ("a", .num (.int 2))]) false =
      "a: 2\nB: 1\n" ∧
    Enc.cmpPrim (strL "B") (strL "a") = -1 :=
  ⟨rfl, rfl⟩

/-- C7 (amended): the encoder sorts dict keys with `localeCompare` (modelled
root collation: case-insensitive primary, lowercase-first tiebreak), and
this ordering is universal: for EVERY entry list the sorting step used by
`toObject` emits the keys in ascending `localeCompare` order (first
conjunct), and for EVERY two insertion orders of the same entries whose
keys are pairwise comparator-distinct the sorted sequences — hence the
emitted key orders — are identical (second conjunct), so re-encoding the
same key set always yields the same key order.  On concrete dicts this
coincides with lexicographic order for keys of uniform case (`{b, a}`) but
differs from it for mixed-case keys (`{B, a}`). -/
theorem c7_amended_locale_sort :
    (∀ entries : List (String × Value),
        (Enc.sortEntries entries).Pairwise fun f g =>
          Enc.localeCompare f.1 g.1 ≤ 0) ∧
    (∀ l1 l2 : List (String × Value), l1.Perm l2 →
        l1.Pairwise (fun f g => Enc.localeCompare f.1 g.1 ≠ 0) →
        Enc.sortEntries l1 = Enc.sortEntries l2) ∧
    Enc.stringify (.dict [("B", .num (.int 1)), ("a", .num (.int 2))]) false =
      "a: 2\nB: 1\n" ∧
    Enc.stringify (.dict [("a", .num (.int 2)), ("B", .num (.int 1))]) false =
      "a: 2\nB: 1\n" ∧
    Enc.stringify (.dict [("b", .num (.int 1)), ("a", .num (.int 2))]) false =
      "a: 2\nb: 1\n" ∧
    Enc.stringify (.dict [("a", .num (.int 2)), ("b", .num (.int 1))]) false =
      "a: 2\nb: 1\n" := by
  refine ⟨pairwise_sortEntries, ?_, rfl, rfl, rfl, rfl⟩
  intro l1 l2 hp hd
  have hperm : (Enc.sortEntries l1).Perm (Enc.sortEntries l2) :=
    ((perm_sortEntries l1).trans hp).trans (perm_sortEntries l2).symm
  have hsymm : Symmetric fun f g : String × Value =>
      Enc.localeCompare f.1 g.1 ≠ 0 := by
    intro f g h hc
    apply h
    have := localeCompare_antisymm f.1 g.1
    omega
  have hd1 : (Enc.sortEntries l1).Pairwise fun f g =>
      Enc.localeCompare f.1 g.1 ≠ 0 :=
    (List.Perm.pairwise_iff (fun h => hsymm h) (perm_sortEntries l1)).mpr hd
  exact sorted_perm_eq _ _ hperm (pairwise_sortEntries l1)
    (pairwise_sortEntries l2) hd1

/-- Witness for the hypotheses of `c7_amended_locale_sort`: the two
insertion orders of the mixed-case entries `B` and `a` — a transposition
with comparator-distinct keys — sort to the same sequence. -/
theorem c7_amended_locale_sort_witness :
    Enc.sortEntries [("B", Value.num (.int 1)), ("a", Value.num (.int 2))] =
      Enc.sortEntries [("a", Value.num (.int 2)), ("B", Value.num (.int 1))] :=
  c7_amended_locale_sort.2.1
    [("B", Value.num (.int 1)), ("a", Value.num (.int 2))]
    [("a", Value.num (.int 2)), ("B", Value.num (.int 1))]
    (List.Perm.swap ("a", Value.num (.int 2)) ("B", Value.num (.int 1)) [])
    (by decide)

/-- C8 (counterexample): a `\,u` escape whose four characters are NOT all
hex digits can still be accepted: `parseInt("12zz", 16)` parses the prefix
`12` and yields 18 rather than NaN, so `"\u12zz"` decodes successfully to
the one-character string U+0012 — no lexical error. -/
theorem c8_u_escape_partial_hex_accepted :
    resVal (decode "\"\\u12zz\"") = some (.str "\x12") := rfl

/-- C8 (amended): the escape table is exactly `" \ / n t r b f` plus
`\,uXXXX`; a `\,u` escape is a lexical error only when `parseInt(hex, 16)`
yields NaN, i.e. when the four characters have no parseable hex prefix —
otherwise the longest hex prefix's value is used and all four characters
are consumed.  An invalid escape character and an unterminated string error
as claimed. -/
theorem c8_amended_escape_handling :
    resVal (decode "\"\\u0041\"") = some (.str "A") ∧
    resErr (decode "\"\\uzzzz\"") =
      some ("invalid unicode escape sequence \\uzzzz", 1) ∧
    resVal (decode "\"\\n\"") = some (.str "\n") ∧
    resVal (decode "\"\\t\\r\\b\\f\\\\\\\"\\/\"") =
      some (.str "\t\r\x08\x0c\\\"/") ∧
    resErr (decode "\"\\q\"") =
      some ("invalid escape character \x27\\q\x27", 1) ∧
    resErr (decode "\"abc") = some ("unclosed string", 1) :=
  ⟨rfl, rfl, rfl, rfl, rfl, rfl⟩

/-- C10: a multiline dict whose single entry uses a key inherited from
`Object.prototype` is rejected with a duplicate-key error at its first
occurrence, because presence is tested with the JS `in` operator on a plain
object: bare `constructor`/`toString` keys and the quoted `"__proto__"` key
all fail this way, and the final conjunct checks every `Object.prototype`
property name in quoted form.  (A BARE `__proto__` key cannot even reach
the duplicate check: `_` is not a legal key start, as the last conjunct
shows.) -/
theorem c10_prototype_keys_duplicate_error :
    resErr (decode "constructor: 1\n") =
      some ("duplicate key \x27constructor\x27 in dict", 1) ∧
    resErr (decode "toString: 1\n") =
      some ("duplicate key \x27toString\x27 in dict", 1) ∧
    resErr (decode "\"__proto__\": 1\n") =
      some ("duplicate key \x27__proto__\x27 in dict", 1) ∧
    (OBJECT_PROTOTYPE_PROPS.all fun p =>
        resErr (decode ("\"" ++ p ++ "\": 1\n")) ==
          some ("duplicate key \x27" ++ p ++ "\x27 in dict", 1)) = true ∧
    resErr (decode "__proto__: 1\n") =
      some ("invalid character \x27_\x27, expected key", 1) :=
  ⟨rfl, rfl, rfl, rfl, rfl⟩

end HUML
